import Mathlib

/-!
Shallow embedding of the Super Thanks extraction core of
`src/superthanks.js`: the amount parser (`normNumber`), currency
normalization (`normalizeCurrency`), the detection heuristic
(`isSuperThanksBlock`), the regex-driven extraction
(`extractFindingsInPage`, here `scanMatches`/`extractBlock`), and the
stateful aggregation layer (`collectAndReport`, `hashFinding`,
`mapToSortedObject`, `round2`).

Strings are modelled through their character lists.  JavaScript numbers
are idealised as exact decimal values: the type `Dec` stores an integer
mantissa and a power-of-ten exponent in canonical form (no trailing
zeros in the fraction), so every operation of the program stays
kernel-computable; `Dec.toRat` maps a value to `ℚ`, and the theorems
about amounts are stated over `ℚ` through it.  `parseFloat` is a prefix
parser of decimal literals returning `Option Dec`, with `none` standing
for `NaN`.  Case mapping is modelled on the ASCII range, which covers
every character the currency, keyword and number machinery compares
case-insensitively.
-/

/-- JavaScript `\s` (whitespace class), restricted to the whitespace
characters the program manipulates: space, tab, LF, CR, VT, FF,
no-break space U+00A0 and narrow no-break space U+202F. -/
def isWS (c : Char) : Bool :=
  c == ' ' || c == '\t' || c == '\n' || c == '\r' || c == '\x0b' ||
  c == '\x0c' || c == ' ' || c == ' '

/-- JavaScript word character `[A-Za-z0-9_]`, used by `\b`. -/
def isWordChar (c : Char) : Bool :=
  ('a' ≤ c && c ≤ 'z') || ('A' ≤ c && c ≤ 'Z') || c.isDigit || c == '_'

/-- `String.prototype.trim`: strip leading and trailing whitespace. -/
def trimBoth (cs : List Char) : List Char :=
  ((cs.dropWhile isWS).reverse.dropWhile isWS).reverse

/-- `String.prototype.toLowerCase`, modelled on the ASCII range. -/
def lowerL (cs : List Char) : List Char := cs.map Char.toLower

/-- `replace(/\s+/g, ' ')`: collapse every whitespace run to one space. -/
def collapseWS (cs : List Char) : List Char :=
  cs.foldr
    (fun c acc =>
      if isWS c then
        match acc with
        | ' ' :: _ => acc
        | _ => ' ' :: acc
      else c :: acc) []

/-- Does `needle` occur at the front of `hay`? -/
def hasPfxL : List Char → List Char → Bool
  | [], _ => true
  | _ :: _, [] => false
  | a :: as, b :: bs => a == b && hasPfxL as bs

/-- `String.prototype.includes`: substring occurrence. -/
def containsSub : List Char → List Char → Bool
  | [], needle => needle.isEmpty
  | a :: t, needle => hasPfxL needle (a :: t) || containsSub t needle

/-- `String.prototype.lastIndexOf` for a single character
(`none` models the JavaScript result `-1`). -/
def lastIdxOf (cs : List Char) (c : Char) : Option Nat :=
  match cs with
  | [] => none
  | a :: t =>
    match lastIdxOf t c with
    | some i => some (i + 1)
    | none => if a = c then some 0 else none

/-- The regex test `/sep\d{1,2}$/`: does the string end in `sep`
followed by one or two digits? -/
def tailFrac (sep : Char) (cs : List Char) : Bool :=
  match cs.reverse with
  | a :: b :: rest =>
    a.isDigit &&
      (b == sep ||
        (b.isDigit && (match rest with | c :: _ => c == sep | [] => false)))
  | _ => false

/-- Decimal-separator inference of `normNumber`: with both `.` and `,`
present the later one wins; with only one present it is the decimal
point exactly when followed by one or two trailing digits. -/
def decimalSepOf (cs : List Char) : Option Char :=
  match lastIdxOf cs '.', lastIdxOf cs ',' with
  | some d, some k => some (if k < d then '.' else ',')
  | some _, none => if tailFrac '.' cs then some '.' else none
  | none, some _ => if tailFrac ',' cs then some ',' else none
  | none, none => none

/-- Numeric value of a digit string (most significant first). -/
def digitsToNat (ds : List Char) : Nat :=
  ds.foldl (fun a c => a * 10 + (c.toNat - '0'.toNat)) 0

/-- `10 ^ k` as a natural number, by plain recursion so that it always
reduces in the kernel. -/
def tenPowN : Nat → Nat
  | 0 => 1
  | k + 1 => 10 * tenPowN k

/-- Exact decimal value `num / 10 ^ exp`: the idealisation of the
JavaScript numbers flowing through the program. -/
structure Dec where
  num : Int
  exp : Nat
deriving DecidableEq

/-- Strip factors of ten shared by mantissa and exponent, so that equal
values have equal representations (the counterpart of a JavaScript
number having one canonical value). -/
def Dec.canonAux : Nat → Int → Dec
  | 0, m => ⟨m, 0⟩
  | k + 1, m => if m % 10 = 0 then Dec.canonAux k (m / 10) else ⟨m, k + 1⟩

/-- Canonical form of a `Dec`. -/
def Dec.canon (d : Dec) : Dec := Dec.canonAux d.exp d.num

/-- The rational value of a `Dec`. -/
def Dec.toRat (d : Dec) : ℚ := (d.num : ℚ) / (10 : ℚ) ^ d.exp

/-- Build the value of a parsed decimal literal: sign, integer digits,
fraction digits and decimal exponent. -/
def Dec.ofParts (neg : Bool) (ip fr : List Char) (e : ℤ) : Dec :=
  let base : Int := (digitsToNat ip * tenPowN fr.length + digitsToNat fr : Nat)
  let m : Int := if neg then -base else base
  if 0 ≤ e then Dec.canon ⟨m * (tenPowN e.toNat : Int), fr.length⟩
  else Dec.canon ⟨m, fr.length + (-e).toNat⟩

/-- Multiplication by 1000 (the `bin` multiplier). -/
def Dec.mul1000 (d : Dec) : Dec := Dec.canon ⟨d.num * 1000, d.exp⟩

/-- Exact addition of decimal values (JavaScript `+` on the amounts,
idealised). -/
def Dec.add (a b : Dec) : Dec :=
  Dec.canon ⟨a.num * (tenPowN b.exp : Int) + b.num * (tenPowN a.exp : Int), a.exp + b.exp⟩

/-- The zero amount. -/
def Dec.zero : Dec := ⟨0, 0⟩

/-- `round2` of `src/superthanks.js`: `Math.round(n * 100) / 100`,
with `Math.round x = ⌊x + 1/2⌋`. -/
def Dec.round2 (d : Dec) : Dec :=
  Dec.canon ⟨(200 * d.num + (tenPowN d.exp : Int)) / (2 * (tenPowN d.exp : Int)), 2⟩

/-- Decimal digits of a natural number, most significant first. -/
def natDigitsAux : Nat → Nat → List Char
  | 0, _ => []
  | fuel + 1, n =>
    if n = 0 then []
    else natDigitsAux fuel (n / 10) ++ [Char.ofNat ('0'.toNat + n % 10)]

/-- Render a natural number in decimal. -/
def natToStrL (n : Nat) : List Char :=
  if n = 0 then ['0'] else natDigitsAux (n + 1) n

/-- Left-pad a digit string with zeros to length `k`. -/
def padZeros (k : Nat) (ds : List Char) : List Char :=
  List.replicate (k - ds.length) '0' ++ ds

/-- JavaScript number-to-string conversion for the canonical decimal
values of this program (template-literal interpolation of an amount):
plain decimal notation, no exponent forms. -/
def numToStrL (d : Dec) : List Char :=
  let sign : List Char := if d.num < 0 then ['-'] else []
  let a := d.num.natAbs
  if d.exp = 0 then sign ++ natToStrL a
  else
    sign ++ natToStrL (a / tenPowN d.exp) ++
      '.' :: padZeros d.exp (natToStrL (a % tenPowN d.exp))

/-- Exponent tail of a decimal literal (`e`/`E`, optional sign, digits);
a malformed exponent contributes `0`, as `parseFloat` ignores it. -/
def expTail (r : List Char) : ℤ :=
  let sr : Bool × List Char :=
    match r with
    | '+' :: t => (false, t)
    | '-' :: t => (true, t)
    | _ => (false, r)
  let ds := sr.2.takeWhile Char.isDigit
  if ds.isEmpty then 0
  else if sr.1 then -(digitsToNat ds : ℤ) else (digitsToNat ds : ℤ)

/-- Exponent part starting at `cs`, if any. -/
def expOf (cs : List Char) : ℤ :=
  match cs with
  | 'e' :: r => expTail r
  | 'E' :: r => expTail r
  | _ => 0

/-- JavaScript `parseFloat`, idealised over exact decimals: parse the
longest decimal-literal prefix (optional sign, digits, optional
fraction, optional exponent); `none` models `NaN`. -/
def jsParseFloat (cs : List Char) : Option Dec :=
  let s := cs.dropWhile isWS
  let sg : Bool × List Char :=
    match s with
    | '+' :: r => (false, r)
    | '-' :: r => (true, r)
    | _ => (false, s)
  let ip := sg.2.takeWhile Char.isDigit
  let s2 := sg.2.drop ip.length
  let fr : List Char × List Char :=
    match s2 with
    | '.' :: r => (r.takeWhile Char.isDigit, r.dropWhile Char.isDigit)
    | _ => ([], s2)
  if ip.isEmpty && fr.1.isEmpty then none
  else some (Dec.ofParts sg.1 ip fr.1 (expOf fr.2))

/-- The match `^(\d+)\s*bin\b` together with the effect of
`replace(/\s*bin\b/, '')`: on success, the leading digits and the
remainder after `bin`. -/
def binSplit (cs : List Char) : Option (List Char × List Char) :=
  let ds := cs.takeWhile Char.isDigit
  if ds.isEmpty then none
  else
    match (cs.drop ds.length).dropWhile isWS with
    | 'b' :: 'i' :: 'n' :: rest =>
      if (match rest with | [] => true | c :: _ => !isWordChar c) then
        some (ds, rest)
      else none
    | _ => none

/-- `normNumber` of `src/superthanks.js` on a character list: lowercase
and trim, turn NBSP variants into spaces, strip a leading `bin`
multiplier, infer the decimal separator, clean the separators and parse.
`none` models the `NaN` results. -/
def normNumberL (cs0 : List Char) : Option Dec :=
  if cs0.isEmpty then none
  else
    let s0 := (lowerL (trimBoth cs0)).map
      (fun c => if c = ' ' ∨ c = ' ' then ' ' else c)
    let ms : Bool × List Char :=
      match binSplit s0 with
      | some (ds, rest) => (true, trimBoth (ds ++ rest))
      | none => (false, s0)
    let s1 := ms.2
    let cleaned : List Char :=
      match decimalSepOf s1 with
      | some sep =>
        let other := if sep = '.' then ',' else '.'
        let s2 := s1.filter (fun c => c != other)
        let s3 := if sep = ',' then s2.map (fun c => if c = ',' then '.' else c) else s2
        s3.filter (fun c => !isWS c)
      | none => s1.filter (fun c => !(c == '.' || c == ',' || isWS c))
    (jsParseFloat cleaned).map (fun d => if ms.1 then d.mul1000 else d)

/-- `normNumber` on strings, as the exact decimal value. -/
def normNumberD (s : String) : Option Dec := normNumberL s.data

/-- `normNumber` on strings, as a rational value. -/
def normNumber (s : String) : Option ℚ := (normNumberL s.data).map Dec.toRat

/-- `normalizeCurrency` of `src/superthanks.js`. -/
def normalizeCurrency (c : String) : String :=
  if c = "₺" ∨ c = "TL" ∨ c = "TRY" then "TRY"
  else if c = "$" ∨ c = "USD" then "USD"
  else if c = "€" ∨ c = "EUR" then "EUR"
  else if c = "£" ∨ c = "GBP" then "GBP"
  else if c = "¥" ∨ c = "JPY" then "JPY"
  else if c = "₹" ∨ c = "INR" then "INR"
  else if c = "₩" ∨ c = "KRW" then "KRW"
  else if c = "₫" ∨ c = "VND" then "VND"
  else if c = "₦" ∨ c = "NGN" then "NGN"
  else if c = "₱" ∨ c = "PHP" then "PHP"
  else if c = "R$" ∨ c = "BRL" then "BRL"
  else if c = "A$" ∨ c = "AUD" then "AUD"
  else if c = "C$" ∨ c = "CAD" then "CAD"
  else if c = "HK$" then "HKD"
  else if c = "NT$" then "TWD"
  else c

/-- The tokens `normalizeCurrency` recognises. -/
def knownCurrencyTokens : List String :=
  ["₺", "TL", "TRY", "$", "USD", "€", "EUR", "£", "GBP", "¥", "JPY",
   "₹", "INR", "₩", "KRW", "₫", "VND", "₦", "NGN", "₱", "PHP",
   "R$", "BRL", "A$", "AUD", "C$", "CAD", "HK$", "NT$"]

/-- `THANKS_KEYWORDS` of `extractFindingsInPage`. -/
def thanksKeywords : List String :=
  ["super thanks", "super-thanks", "superthanks",
   "süper teşekkür", "süper teşekkürler", "süper-teşekkür"]

/-- `CURRENCY_SYMBOLS` of `extractFindingsInPage`, in source order
(the regex alternation tries them in this order). -/
def currencySymbols : List String :=
  ["₺", "TL", "TRY", "$", "USD", "€", "EUR", "£", "GBP", "¥", "JPY",
   "₹", "INR", "₩", "KRW", "₫", "VND", "₦", "NGN", "₱", "PHP",
   "R$", "BRL", "A$", "AUD", "C$", "CAD", "HK$", "NT$"]

/-- The test `/\bthanks/` on a lowercased text: an occurrence of
`thanks` preceded by a word boundary. -/
def wordThanksFrom : Option Char → List Char → Bool
  | _, [] => false
  | prev, a :: t =>
    ((match prev with | none => true | some p => !isWordChar p) &&
        hasPfxL ['t', 'h', 'a', 'n', 'k', 's'] (a :: t)) ||
      wordThanksFrom (some a) t

/-- The test `/[€$£¥₺]|TL|TRY|USD|EUR|GBP|JPY/i` of the co-occurrence
trigger, evaluated on the lowercased text (case-insensitive matching of
ASCII codes coincides with lowercased containment). -/
def curHeurTest (t : List Char) : Bool :=
  t.any (fun c => c == '€' || c == '$' || c == '£' || c == '¥' || c == '₺') ||
    (["tl", "try", "usd", "eur", "gbp", "jpy"].any fun k => containsSub t k.data)

/-- The test `/\bthanks|teşekkür/i` on the lowercased text. -/
def thanksHeurTest (t : List Char) : Bool :=
  wordThanksFrom none t || containsSub t "teşekkür".data

/-- `isSuperThanksBlock` of `src/superthanks.js`.  The DOM badge query
(`aria-label`/`title` markers) is supplied by the caller as the boolean
`badge`, as the spec's detection trigger (b). -/
def isSuperThanksBlock (badge : Bool) (fullText : List Char) : Bool :=
  let t := lowerL fullText
  (thanksKeywords.any fun k => containsSub t k.data) || badge ||
    (curHeurTest t && thanksHeurTest t)

/-- Case-insensitive literal match (regex `i` flag): on success, the
matched original text and the rest. -/
def matchTokenCI : List Char → List Char → Option (List Char × List Char)
  | [], cs => some ([], cs)
  | _ :: _, [] => none
  | a :: as, b :: bs =>
    if a.toLower == b.toLower then
      (matchTokenCI as bs).map (fun p => (b :: p.1, p.2))
    else none

/-- All currency alternatives matching at this position, in alternation
order. -/
def currencyAlts (cs : List Char) : List (List Char × List Char) :=
  currencySymbols.filterMap (fun t => matchTokenCI t.data cs)

/-- List concatenation of mapped results (backtracking alternatives in
priority order). -/
def catMap (f : α → List β) : List α → List β
  | [] => []
  | a :: t => f a ++ catMap f t

/-- Three consecutive digits (`\d{3}`). -/
def take3Digits (cs : List Char) : Option (List Char × List Char) :=
  match cs with
  | a :: b :: c :: r =>
    if a.isDigit && b.isDigit && c.isDigit then some ([a, b, c], r) else none
  | _ => none

/-- The grouping-separator class `[.,  \s]`. -/
def isGroupingSep (c : Char) : Bool := c == '.' || c == ',' || isWS c

/-- One repetition of `(?:[.,  \s]?\d{3})`, options in greedy
order (separator consumed before not). -/
def grpOnce (cs : List Char) : List (List Char × List Char) :=
  (match cs with
   | c :: r =>
     if isGroupingSep c then
       match take3Digits r with
       | some (g, r2) => [(c :: g, r2)]
       | none => []
     else []
   | [] => []) ++
    (match take3Digits cs with
     | some (g, r2) => [(g, r2)]
     | none => [])

/-- Greedy star over the grouping repetition: more repetitions first. -/
def groupStar : Nat → List Char → List (List Char × List Char)
  | 0, cs => [([], cs)]
  | fuel + 1, cs =>
    (catMap (fun p => (groupStar fuel p.2).map fun q => (p.1 ++ q.1, q.2))
        (grpOnce cs)) ++ [([], cs)]

/-- Optional fraction `(?:[.,]\d{1,2})?`, options in greedy order:
two digits, one digit, absent. -/
def fracOpts (cs : List Char) : List (List Char × List Char) :=
  (match cs with
   | c :: d1 :: d2 :: r =>
     if (c == '.' || c == ',') && d1.isDigit && d2.isDigit then
       [([c, d1, d2], r)]
     else []
   | _ => []) ++
    (match cs with
     | c :: d1 :: r =>
       if (c == '.' || c == ',') && d1.isDigit then [([c, d1], r)] else []
     | _ => []) ++ [([], cs)]

/-- Greedy prefixes of the leading digit run (`\d+`), longest first. -/
def digitRunOpts (cs : List Char) : List (List Char × List Char) :=
  let n := (cs.takeWhile Char.isDigit).length
  (List.range n).map (fun i => (cs.take (n - i), cs.drop (n - i)))

/-- First alternative of `NUM_PATTERN`:
`\d+(?:[.,  \s]?\d{3})*(?:[.,]\d{1,2})?`, all backtracking
options in priority order. -/
def alt1Opts (cs : List Char) : List (List Char × List Char) :=
  catMap
    (fun d =>
      catMap
        (fun g => (fracOpts g.2).map fun f => (d.1 ++ g.1 ++ f.1, f.2))
        (groupStar d.2.length d.2))
    (digitRunOpts cs)

/-- Second alternative of `NUM_PATTERN`: `\d+\s*bin`. -/
def alt2Opts (cs : List Char) : List (List Char × List Char) :=
  (digitRunOpts cs).filterMap (fun d =>
    let ws := d.2.takeWhile isWS
    (matchTokenCI ['b', 'i', 'n'] (d.2.drop ws.length)).map
      (fun b => (d.1 ++ ws ++ b.1, b.2)))

/-- All matches of `NUM_PATTERN` at this position, in the regex
backtracking priority order. -/
def numOpts (cs : List Char) : List (List Char × List Char) :=
  alt1Opts cs ++ alt2Opts cs

/-- Branch `(CURRENCY)\s*(NUM)` of `CURRENCY_RE` at this position:
first currency alternative whose continuation matches. -/
def tryBranch1 (cs : List Char) : Option ((List Char × List Char) × List Char) :=
  (currencyAlts cs).findSome? (fun p =>
    match numOpts (p.2.dropWhile isWS) with
    | q :: _ => some ((p.1, q.1), q.2)
    | [] => none)

/-- Branch `(NUM)\s*(CURRENCY)` of `CURRENCY_RE` at this position:
first number option whose continuation matches a currency. -/
def tryBranch2 (cs : List Char) : Option ((List Char × List Char) × List Char) :=
  (numOpts cs).findSome? (fun q =>
    match currencyAlts (q.2.dropWhile isWS) with
    | p :: _ => some ((p.1, q.1), p.2)
    | [] => none)

/-- A match attempt of `CURRENCY_RE` at this position (branch 1 before
branch 2); the result carries the currency token, the number substring
and the rest of the text after the match. -/
def tryAt (cs : List Char) : Option ((List Char × List Char) × List Char) :=
  (tryBranch1 cs).orElse (fun _ => tryBranch2 cs)

/-- The global `exec` loop of `CURRENCY_RE`: scan positions left to
right, resume after each match. -/
def scanAux : Nat → List Char → List (List Char × List Char)
  | 0, _ => []
  | _ + 1, [] => []
  | fuel + 1, c :: rest =>
    match tryAt (c :: rest) with
    | some (m, r) => m :: scanAux fuel r
    | none => scanAux fuel rest

/-- All `CURRENCY_RE` matches of a text block, left to right, each as
(currency token, number substring). -/
def scanMatches (cs : List Char) : List (List Char × List Char) :=
  scanAux cs.length cs

/-- A retained observation (the `Finding` record of the program). -/
structure Finding where
  currency : String
  amount : Dec
  author : String
  snippet : String
deriving DecidableEq

/-- `(m[1] || m[4] || '').toUpperCase().replace(/\s+/g, '')`. -/
def canonTok (tok : List Char) : String :=
  ⟨(tok.map Char.toUpper).filter (fun c => !isWS c)⟩

/-- The snippet taken from a block's text: trimmed, whitespace
collapsed, first 200 characters. -/
def mkSnippet (text : String) : String :=
  ⟨(collapseWS (trimBoth text.data)).take 200⟩

/-- Turn one regex match into a Finding, as the extraction loop does:
normalize the currency, parse the amount, keep the pair only when the
currency is non-empty and the amount parsed (`isFinite`). -/
def mkFinding (author text : String) (tn : List Char × List Char) : Option Finding :=
  let currency := normalizeCurrency (canonTok tn.1)
  match normNumberL (trimBoth tn.2) with
  | some q => if currency = "" then none else some ⟨currency, q, author, mkSnippet text⟩
  | none => none

/-- Per-block part of `extractFindingsInPage`: trim, require non-empty
text, apply the detection predicate, then collect the matches. -/
def extractBlock (badge : Bool) (author text : String) : List Finding :=
  let cs := trimBoth text.data
  if cs.isEmpty then []
  else if isSuperThanksBlock badge cs then
    (scanMatches cs).filterMap (mkFinding author text)
  else []

/-- `extractFindingsInPage` over a batch of blocks, each block given as
(badge signal, author, text). -/
def extractPage (blocks : List (Bool × String × String)) : List Finding :=
  catMap (fun b => extractBlock b.1 b.2.1 b.2.2) blocks

/-- `hashFinding` of `src/superthanks.js`:
`currency|amount|author.trim()|snippet.trim()`. -/
def hashFinding (f : Finding) : String :=
  f.currency ++ "|" ++ (⟨numToStrL f.amount⟩ : String) ++ "|" ++
    (⟨trimBoth f.author.data⟩ : String) ++ "|" ++ (⟨trimBoth f.snippet.data⟩ : String)

/-- The run's mutable state: the dedup seen-set, the ordered findings
log and the per-currency totals (a JavaScript `Map` as an insertion
ordered association list). -/
structure RunState where
  seen : List String
  findings : List Finding
  totals : List (String × Dec)
deriving DecidableEq

/-- The empty state at the start of a scan. -/
def RunState.empty : RunState := ⟨[], [], []⟩

/-- `Map.get` (first entry with the key; `none` models `undefined`). -/
def mapGet (m : List (String × Dec)) (k : String) : Option Dec :=
  match m with
  | [] => none
  | (k', v) :: t => if k' = k then some v else mapGet t k

/-- `Map.set`: update the existing entry in place, else append. -/
def mapSet (m : List (String × Dec)) (k : String) (v : Dec) : List (String × Dec) :=
  match m with
  | [] => [(k, v)]
  | (k', v') :: t => if k' = k then (k', v) :: t else (k', v') :: mapSet t k v

/-- Accept one new finding: record its hash, append it to the log and
add its amount to the totals (`prev + Number(f.amount || 0)`). -/
def addFinding (st : RunState) (f : Finding) : RunState :=
  { seen := hashFinding f :: st.seen
    findings := st.findings ++ [f]
    totals := mapSet st.totals f.currency
      (((mapGet st.totals f.currency).getD Dec.zero).add f.amount) }

/-- `collectAndReport` of `src/superthanks.js` on a batch of extracted
findings: skip the ones whose fingerprint was already seen, accept the
rest in order; returns the new state and the streamed new findings. -/
def collectAndReport (st : RunState) : List Finding → RunState × List Finding
  | [] => (st, [])
  | f :: fs =>
    if hashFinding f ∈ st.seen then collectAndReport st fs
    else
      let res := collectAndReport (addFinding st f) fs
      (res.1, f :: res.2)

/-- One ingestion call on a single block. -/
def ingestBlock (st : RunState) (badge : Bool) (author text : String) :
    RunState × List Finding :=
  collectAndReport st (extractBlock badge author text)

/-- One ingestion call on a batch of blocks (one scroll/settle cycle). -/
def ingestPage (st : RunState) (blocks : List (Bool × String × String)) :
    RunState × List Finding :=
  collectAndReport st (extractPage blocks)

/-- A whole run: a sequence of `collectAndReport` calls from the empty
state. -/
def runBatches (bs : List (List Finding)) : RunState :=
  bs.foldl (fun st b => (collectAndReport st b).1) RunState.empty

/-- Computable lexicographic comparison of character lists (the
ordering `localeCompare` induces on the currency codes). -/
def charListLe : List Char → List Char → Bool
  | [], _ => true
  | _ :: _, [] => false
  | a :: as, b :: bs => if a = b then charListLe as bs else decide (a < b)

/-- Lexicographic `≤` on strings, computably. -/
def strLeb (a b : String) : Bool := charListLe a.data b.data

/-- `mapToSortedObject` of `src/superthanks.js`: entries sorted by
currency code, each value rounded to two decimals. -/
def mapToSortedObject (m : List (String × Dec)) : List (String × Dec) :=
  (List.insertionSort (fun a b : String × Dec => strLeb a.1 b.1 = true) m).map
    (fun p => (p.1, p.2.round2))

theorem tenPowN_pos (k : Nat) : 0 < tenPowN k := by
  induction k with
  | zero => simp [tenPowN]
  | succ k ih => rw [tenPowN]; exact Nat.mul_pos (by norm_num) ih

theorem tenPowN_cast_rat (k : Nat) : ((tenPowN k : ℕ) : ℚ) = (10 : ℚ) ^ k := by
  induction k with
  | zero => simp [tenPowN]
  | succ k ih => push_cast [tenPowN, pow_succ]; push_cast at ih; rw [ih]; ring

theorem canonAux_toRat (k : Nat) (m : ℤ) :
    (Dec.canonAux k m).toRat = (Dec.mk m k).toRat := by
  induction k generalizing m with
  | zero => rfl
  | succ k ih =>
    by_cases h : m % 10 = 0
    · have hdvd : (10 : ℤ) ∣ m := Int.dvd_of_emod_eq_zero h
      obtain ⟨c, rfl⟩ := hdvd
      have hc : (10 : ℤ) * c / 10 = c := by
        rw [Int.mul_ediv_cancel_left c (by norm_num)]
      rw [Dec.canonAux, if_pos h, hc, ih]
      simp only [Dec.toRat, pow_succ]
      push_cast
      field_simp
      ring
    · rw [Dec.canonAux, if_neg h]

theorem canon_toRat (d : Dec) : d.canon.toRat = d.toRat := canonAux_toRat d.exp d.num

theorem add_toRat (a b : Dec) : (a.add b).toRat = a.toRat + b.toRat := by
  rw [Dec.add, canon_toRat]
  simp only [Dec.toRat]
  have ha : (0 : ℚ) < (10 : ℚ) ^ a.exp := by positivity
  have hb : (0 : ℚ) < (10 : ℚ) ^ b.exp := by positivity
  push_cast [tenPowN_cast_rat, pow_add]
  field_simp

theorem zero_toRat : Dec.zero.toRat = 0 := by simp [Dec.zero, Dec.toRat]

theorem mul1000_toRat (d : Dec) : d.mul1000.toRat = d.toRat * 1000 := by
  rw [Dec.mul1000, canon_toRat]
  simp only [Dec.toRat]
  push_cast
  ring

theorem round2_toRat (d : Dec) :
    d.round2.toRat = (⌊d.toRat * 100 + 1 / 2⌋ : ℚ) / 100 := by
  rw [Dec.round2, canon_toRat]
  have hfl : ⌊d.toRat * 100 + 1 / 2⌋ =
      (200 * d.num + (tenPowN d.exp : ℤ)) / (2 * (tenPowN d.exp : ℤ)) := by
    have h2 : ((2 * tenPowN d.exp : ℕ) : ℤ) = 2 * (tenPowN d.exp : ℤ) := by push_cast; ring
    rw [← h2, ← Rat.floor_intCast_div_natCast (200 * d.num + (tenPowN d.exp : ℤ)) (2 * tenPowN d.exp)]
    congr 1
    have hp : (0 : ℚ) < (10 : ℚ) ^ d.exp := by positivity
    simp only [Dec.toRat]
    push_cast [tenPowN_cast_rat]
    field_simp
    ring
  rw [hfl]
  show ((_ : ℤ) : ℚ) / (10 : ℚ) ^ (2 : ℕ) = _
  norm_num

theorem mapGet_mapSet_self (m : List (String × Dec)) (k : String) (v : Dec) :
    mapGet (mapSet m k v) k = some v := by
  induction m with
  | nil => simp [mapSet, mapGet]
  | cons p t ih =>
    by_cases h : p.1 = k
    · simp [mapSet, mapGet, h]
    · simp [mapSet, mapGet, h, ih]

theorem mapGet_mapSet_ne (m : List (String × Dec)) (k k' : String) (v : Dec)
    (h : k' ≠ k) : mapGet (mapSet m k v) k' = mapGet m k' := by
  induction m with
  | nil =>
    simp only [mapSet, mapGet]
    rw [if_neg (fun hh => h hh.symm)]
  | cons p t ih =>
    obtain ⟨a, w⟩ := p
    by_cases hp : a = k
    · subst hp
      have hk' : ¬a = k' := fun hh => h hh.symm
      simp only [mapSet, if_pos rfl, mapGet, if_neg hk']
    · simp only [mapSet, if_neg hp, mapGet]
      by_cases hp' : a = k'
      · simp [hp']
      · simp [hp', ih]

/-- The totals invariant: for every currency the stored total is the sum
of the amounts of the retained findings in that currency, and a currency
is present exactly when such a finding exists. -/
def TotalsInv (st : RunState) : Prop :=
  ∀ c : String,
    (mapGet st.totals c).map Dec.toRat =
      (if (st.findings.filter fun f => f.currency = c) = [] then none
       else some ((st.findings.filter fun f => f.currency = c).map
         (fun f => f.amount.toRat)).sum)

theorem totalsInv_empty : TotalsInv RunState.empty := by
  intro c
  simp [RunState.empty, mapGet]

theorem totalsInv_addFinding {st : RunState} (h : TotalsInv st) (f : Finding) :
    TotalsInv (addFinding st f) := by
  intro c
  have hf : (addFinding st f).findings = st.findings ++ [f] := rfl
  have ht : (addFinding st f).totals =
      mapSet st.totals f.currency
        (((mapGet st.totals f.currency).getD Dec.zero).add f.amount) := rfl
  rw [hf, ht, List.filter_append]
  by_cases hc : f.currency = c
  · subst hc
    rw [mapGet_mapSet_self]
    have hone : (List.filter (fun g => g.currency = f.currency) [f]) = [f] := by simp
    rw [hone]
    have hne : (st.findings.filter fun g => g.currency = f.currency) ++ [f] ≠ [] := by simp
    rw [if_neg hne]
    have hsum : (((st.findings.filter fun g => g.currency = f.currency) ++ [f]).map
        (fun g => g.amount.toRat)).sum =
        ((st.findings.filter fun g => g.currency = f.currency).map
          (fun g => g.amount.toRat)).sum + f.amount.toRat := by
      simp
    rw [hsum]
    have hsp := h f.currency
    by_cases he : (st.findings.filter fun g => g.currency = f.currency) = []
    · rw [he] at hsp ⊢
      rw [if_pos rfl] at hsp
      have hmg : mapGet st.totals f.currency = none := by
        cases hmg : mapGet st.totals f.currency with
        | none => rfl
        | some v => rw [hmg] at hsp; simp at hsp
      rw [hmg]
      simp [add_toRat, zero_toRat]
    · rw [if_neg he] at hsp
      cases hmg : mapGet st.totals f.currency with
      | none => rw [hmg] at hsp; simp at hsp
      | some v =>
        have hv : v.toRat = ((st.findings.filter fun g => g.currency = f.currency).map
            (fun g => g.amount.toRat)).sum := by
          rw [hmg] at hsp; simpa using hsp
        simp only [Option.getD_some, Option.map_some']
        rw [add_toRat, hv]
  · rw [mapGet_mapSet_ne _ _ _ _ (fun hh => hc hh.symm)]
    have hzero : (List.filter (fun g => g.currency = c) [f]) = [] := by simp [hc]
    rw [hzero, List.append_nil]
    exact h c

theorem totalsInv_collect {st : RunState} (h : TotalsInv st) (fs : List Finding) :
    TotalsInv (collectAndReport st fs).1 := by
  induction fs generalizing st with
  | nil => simpa [collectAndReport] using h
  | cons f t ih =>
    rw [collectAndReport]
    by_cases hs : hashFinding f ∈ st.seen
    · rw [if_pos hs]; exact ih h
    · rw [if_neg hs]; exact ih (totalsInv_addFinding h f)

theorem totalsInv_runBatches (bs : List (List Finding)) :
    TotalsInv (runBatches bs) := by
  have main : ∀ (bs : List (List Finding)) (st : RunState), TotalsInv st →
      TotalsInv (bs.foldl (fun s b => (collectAndReport s b).1) st) := by
    intro bs
    induction bs with
    | nil => intro st h; simpa using h
    | cons b t ih =>
      intro st h
      simpa [List.foldl_cons] using ih _ (totalsInv_collect h b)
  exact main bs RunState.empty totalsInv_empty

theorem collect_seen_mono {st : RunState} {s : String} (hs : s ∈ st.seen) :
    ∀ fs : List Finding, s ∈ (collectAndReport st fs).1.seen := by
  intro fs
  induction fs generalizing st with
  | nil => simpa [collectAndReport] using hs
  | cons g t ih =>
    rw [collectAndReport]
    by_cases hg : hashFinding g ∈ st.seen
    · rw [if_pos hg]; exact ih hs
    · rw [if_neg hg]
      exact ih (List.mem_cons_of_mem _ hs)

theorem collect_seen_all (fs : List Finding) (st : RunState) :
    ∀ f ∈ fs, hashFinding f ∈ (collectAndReport st fs).1.seen := by
  induction fs generalizing st with
  | nil => intro f hf; simp at hf
  | cons g t ih =>
    intro f hf
    rw [collectAndReport]
    by_cases hg : hashFinding g ∈ st.seen
    · rw [if_pos hg]
      rcases List.mem_cons.mp hf with rfl | hft
      · exact collect_seen_mono hg t
      · exact ih st f hft
    · rw [if_neg hg]
      rcases List.mem_cons.mp hf with rfl | hft
      · exact collect_seen_mono (List.mem_cons_self _ _) t
      · exact ih (addFinding st g) f hft

theorem collect_noop {st : RunState} {fs : List Finding}
    (h : ∀ f ∈ fs, hashFinding f ∈ st.seen) : collectAndReport st fs = (st, []) := by
  induction fs with
  | nil => rfl
  | cons g t ih =>
    rw [collectAndReport, if_pos (h g (List.mem_cons_self _ _))]
    exact ih fun f hf => h f (List.mem_cons_of_mem _ hf)

theorem collect_head_new {st : RunState} {f : Finding} (fs : List Finding)
    (h : hashFinding f ∉ st.seen) : (collectAndReport st (f :: fs)).2 ≠ [] := by
  rw [collectAndReport, if_neg h]
  exact List.cons_ne_nil _ _

/-- C1 (totals consistency invariant): after any sequence of
`collectAndReport` calls starting from the empty `RunState`, and hence
at every point of any such sequence, the accumulated total for each
currency `c` is exactly the sum of the amounts of the retained findings
whose currency is `c`, and `c` is present in the totals map iff such a
finding was retained. -/
theorem totals_consistency (bs : List (List Finding)) (c : String) :
    (mapGet (runBatches bs).totals c).map Dec.toRat =
      (if ((runBatches bs).findings.filter fun f => f.currency = c) = [] then none
       else some ((((runBatches bs).findings.filter fun f => f.currency = c)).map
         (fun f => f.amount.toRat)).sum) :=
  totalsInv_runBatches bs c

/-- C3 (idempotent deduplication): re-ingesting the identical block and
metadata immediately after a first ingestion returns an empty
new-findings list and leaves the state (seen-set, findings log, totals)
exactly as after the first call; and the first call's list is non-empty
whenever the block yields at least one extracted finding none of which
was already seen (in particular from the empty state). -/
theorem ingest_dedup_idempotent (st : RunState) (badge : Bool) (author text : String) :
    ingestBlock (ingestBlock st badge author text).1 badge author text =
        ((ingestBlock st badge author text).1, []) ∧
      (extractBlock badge author text ≠ [] →
        (∀ f ∈ extractBlock badge author text, hashFinding f ∉ st.seen) →
        (ingestBlock st badge author text).2 ≠ []) := by
  constructor
  · exact collect_noop fun f hf => collect_seen_all _ st f hf
  · intro hne hfresh
    obtain ⟨f, fs, hcons⟩ := List.exists_cons_of_ne_nil hne
    rw [ingestBlock, hcons]
    exact collect_head_new fs (hfresh f (hcons ▸ List.mem_cons_self f fs))

theorem ingest_dedup_idempotent_witness :
    ingestBlock (ingestBlock RunState.empty false "a" "Super Thanks! ₺2.199,99").1
        false "a" "Super Thanks! ₺2.199,99" =
        ((ingestBlock RunState.empty false "a" "Super Thanks! ₺2.199,99").1, []) ∧
      (ingestBlock RunState.empty false "a" "Super Thanks! ₺2.199,99").2 ≠ [] :=
  ⟨(ingest_dedup_idempotent RunState.empty false "a" "Super Thanks! ₺2.199,99").1,
   (ingest_dedup_idempotent RunState.empty false "a" "Super Thanks! ₺2.199,99").2
     (by decide) (by decide)⟩

/-- C6 (end-to-end scenario): ingesting the two blocks
`"Super Thanks! ₺2.199,99 harika video"` and
`"thanks $5.99 super thanks"` from the empty state yields exactly the
findings (TRY, 2199.99) then (USD, 5.99) in scan order, totals
TRY ↦ 2199.99 and USD ↦ 5.99 (and no other currency), and count 2. -/
theorem end_to_end_scenario :
    ((ingestPage RunState.empty
        [(false, "", "Super Thanks! ₺2.199,99 harika video"),
         (false, "", "thanks $5.99 super thanks")]).1.findings.map
        fun f => (f.currency, f.amount.toRat)) =
        [("TRY", (2199.99 : ℚ)), ("USD", (5.99 : ℚ))] ∧
      ((mapGet (ingestPage RunState.empty
        [(false, "", "Super Thanks! ₺2.199,99 harika video"),
         (false, "", "thanks $5.99 super thanks")]).1.totals "TRY").map Dec.toRat =
        some (2199.99 : ℚ)) ∧
      ((mapGet (ingestPage RunState.empty
        [(false, "", "Super Thanks! ₺2.199,99 harika video"),
         (false, "", "thanks $5.99 super thanks")]).1.totals "USD").map Dec.toRat =
        some (5.99 : ℚ)) ∧
      ((ingestPage RunState.empty
        [(false, "", "Super Thanks! ₺2.199,99 harika video"),
         (false, "", "thanks $5.99 super thanks")]).1.totals.map Prod.fst =
        ["TRY", "USD"]) ∧
      (ingestPage RunState.empty
        [(false, "", "Super Thanks! ₺2.199,99 harika video"),
         (false, "", "thanks $5.99 super thanks")]).1.findings.length = 2 := by
  have hf : (ingestPage RunState.empty
      [(false, "", "Super Thanks! ₺2.199,99 harika video"),
       (false, "", "thanks $5.99 super thanks")]).1.findings =
      [⟨"TRY", ⟨219999, 2⟩, "", "Super Thanks! ₺2.199,99 harika video"⟩,
       ⟨"USD", ⟨599, 2⟩, "", "thanks $5.99 super thanks"⟩] := by decide
  have ht : (ingestPage RunState.empty
      [(false, "", "Super Thanks! ₺2.199,99 harika video"),
       (false, "", "thanks $5.99 super thanks")]).1.totals =
      [("TRY", ⟨219999, 2⟩), ("USD", ⟨599, 2⟩)] := by decide
  refine ⟨?_, ?_, ?_, ?_, ?_⟩
  · rw [hf]
    simp only [List.map_cons, List.map_nil]
    norm_num [Dec.toRat]
  · rw [ht, show mapGet [("TRY", (⟨219999, 2⟩ : Dec)), ("USD", ⟨599, 2⟩)] "TRY" =
      some ⟨219999, 2⟩ from by decide]
    norm_num [Dec.toRat]
  · rw [ht, show mapGet [("TRY", (⟨219999, 2⟩ : Dec)), ("USD", ⟨599, 2⟩)] "USD" =
      some ⟨599, 2⟩ from by decide]
    norm_num [Dec.toRat]
  · rw [ht]; rfl
  · rw [hf]; rfl

/-- C8 (detection gating): a block that fails the detection predicate —
none of the keyword, badge or co-occurrence triggers — contributes no
findings and leaves the state untouched, even when the block contains a
currency-amount occurrence. -/
theorem detection_gating (st : RunState) (badge : Bool) (author text : String)
    (_hmatch : scanMatches (trimBoth text.data) ≠ [])
    (hdet : isSuperThanksBlock badge (trimBoth text.data) = false) :
    ingestBlock st badge author text = (st, []) := by
  have hext : extractBlock badge author text = [] := by
    simp [extractBlock, hdet]
  rw [ingestBlock, hext]
  rfl

theorem detection_gating_witness :
    scanMatches (trimBoth "₹100 fiyat".data) ≠ [] ∧
      isSuperThanksBlock false (trimBoth "₹100 fiyat".data) = false ∧
      ingestBlock RunState.empty false "" "₹100 fiyat" = (RunState.empty, []) :=
  ⟨by decide, by decide,
   detection_gating RunState.empty false "" "₹100 fiyat" (by decide) (by decide)⟩

/-- C4 counterexample: the block `"thanks ₹100"` contains the known
currency symbol `₹` together with a thanks-family word (`\bthanks`
itself), yet `isSuperThanksBlock` rejects it — the code's co-occurrence
regex `/[€$£¥₺]|TL|TRY|USD|EUR|GBP|JPY/i` does not cover `₹`/INR (nor
the other symbols and codes beyond that list), so the claim is false as
stated. -/
theorem detection_cooccurrence_counterexample :
    '₹' ∈ "thanks ₹100".data ∧
      wordThanksFrom none (lowerL "thanks ₹100".data) = true ∧
      isSuperThanksBlock false "thanks ₹100".data = false := by decide

/-- C4 amended: for every text block whose text passes the code's
co-occurrence currency test (one of the symbols €, $, £, ¥, ₺ or the
codes TL, TRY, USD, EUR, GBP, JPY, case-insensitive) and whose
lowercased text contains a thanks-family word (`\bthanks` or
`teşekkür`), the detection predicate returns true, even with no keyword
match and no badge signal. -/
theorem detection_cooccurrence_restricted (badge : Bool) (text : List Char)
    (hcur : curHeurTest (lowerL text) = true)
    (hth : thanksHeurTest (lowerL text) = true) :
    isSuperThanksBlock badge text = true := by
  rw [isSuperThanksBlock]
  simp [hcur, hth]

theorem detection_cooccurrence_restricted_witness :
    curHeurTest (lowerL "thanks ₺100".data) = true ∧
      thanksHeurTest (lowerL "thanks ₺100".data) = true ∧
      isSuperThanksBlock false "thanks ₺100".data = true :=
  ⟨by decide, by decide,
   detection_cooccurrence_restricted false "thanks ₺100".data (by decide) (by decide)⟩

/-- C5 (currency normalization): every known symbol or code maps to its
canonical three-letter code, and every other token passes through
unchanged. -/
theorem normalizeCurrency_table :
    (normalizeCurrency "₺" = "TRY" ∧ normalizeCurrency "TL" = "TRY" ∧
      normalizeCurrency "TRY" = "TRY" ∧ normalizeCurrency "$" = "USD" ∧
      normalizeCurrency "USD" = "USD" ∧ normalizeCurrency "€" = "EUR" ∧
      normalizeCurrency "EUR" = "EUR" ∧ normalizeCurrency "£" = "GBP" ∧
      normalizeCurrency "GBP" = "GBP" ∧ normalizeCurrency "¥" = "JPY" ∧
      normalizeCurrency "JPY" = "JPY" ∧ normalizeCurrency "₹" = "INR" ∧
      normalizeCurrency "INR" = "INR" ∧ normalizeCurrency "₩" = "KRW" ∧
      normalizeCurrency "KRW" = "KRW" ∧ normalizeCurrency "₫" = "VND" ∧
      normalizeCurrency "VND" = "VND" ∧ normalizeCurrency "₦" = "NGN" ∧
      normalizeCurrency "NGN" = "NGN" ∧ normalizeCurrency "₱" = "PHP" ∧
      normalizeCurrency "PHP" = "PHP" ∧ normalizeCurrency "R$" = "BRL" ∧
      normalizeCurrency "BRL" = "BRL" ∧ normalizeCurrency "A$" = "AUD" ∧
      normalizeCurrency "AUD" = "AUD" ∧ normalizeCurrency "C$" = "CAD" ∧
      normalizeCurrency "CAD" = "CAD" ∧ normalizeCurrency "HK$" = "HKD" ∧
      normalizeCurrency "NT$" = "TWD" ∧ normalizeCurrency "XYZ" = "XYZ") ∧
      ∀ c : String, c ∉ knownCurrencyTokens → normalizeCurrency c = c := by
  constructor
  · decide
  · intro c hc
    simp only [knownCurrencyTokens, List.mem_cons, List.not_mem_nil, or_false,
      not_or] at hc
    obtain ⟨n1, n2, n3, n4, n5, n6, n7, n8, n9, n10, n11, n12, n13, n14, n15,
      n16, n17, n18, n19, n20, n21, n22, n23, n24, n25, n26, n27, n28, n29⟩ := hc
    simp only [normalizeCurrency]
    rw [if_neg (not_or.mpr ⟨n1, not_or.mpr ⟨n2, n3⟩⟩), if_neg (not_or.mpr ⟨n4, n5⟩),
      if_neg (not_or.mpr ⟨n6, n7⟩), if_neg (not_or.mpr ⟨n8, n9⟩),
      if_neg (not_or.mpr ⟨n10, n11⟩), if_neg (not_or.mpr ⟨n12, n13⟩),
      if_neg (not_or.mpr ⟨n14, n15⟩), if_neg (not_or.mpr ⟨n16, n17⟩),
      if_neg (not_or.mpr ⟨n18, n19⟩), if_neg (not_or.mpr ⟨n20, n21⟩),
      if_neg (not_or.mpr ⟨n22, n23⟩), if_neg (not_or.mpr ⟨n24, n25⟩),
      if_neg (not_or.mpr ⟨n26, n27⟩), if_neg n28, if_neg n29]

theorem normalizeCurrency_table_witness : normalizeCurrency "QQQ" = "QQQ" :=
  normalizeCurrency_table.2 "QQQ" (by decide)

/-- C10 (fingerprint not injective): two findings with distinct
(currency, amount, author, snippet) tuples — the author of one contains
the separator character `|` — share the same fingerprint, so the second
genuinely distinct finding is suppressed as a duplicate: ingesting it
after the first changes nothing and returns no new findings. -/
theorem fingerprint_collision :
    (Finding.mk "USD" ⟨5, 0⟩ "a|b" "c" ≠ Finding.mk "USD" ⟨5, 0⟩ "a" "b|c") ∧
      hashFinding (Finding.mk "USD" ⟨5, 0⟩ "a|b" "c") =
        hashFinding (Finding.mk "USD" ⟨5, 0⟩ "a" "b|c") ∧
      collectAndReport
          (collectAndReport RunState.empty [Finding.mk "USD" ⟨5, 0⟩ "a|b" "c"]).1
          [Finding.mk "USD" ⟨5, 0⟩ "a" "b|c"] =
        ((collectAndReport RunState.empty [Finding.mk "USD" ⟨5, 0⟩ "a|b" "c"]).1,
          []) := by decide

/-- C7 (non-fatal failure semantics): the amount parser is a total
function returning the failure value `none` (NaN) on the empty string
and on strings with no valid decimal, never an exception; and every
finding retained from a block has a non-empty currency and an amount
that comes from a successful parse of one of the block's matches —
failed matches are merely skipped while the scan of the block goes on. -/
theorem nonfatal_parse_semantics :
    normNumber "" = none ∧ normNumber "abc" = none ∧
      ∀ (badge : Bool) (author text : String), ∀ f ∈ extractBlock badge author text,
        f.currency ≠ "" ∧
          ∃ tn ∈ scanMatches (trimBoth text.data),
            normalizeCurrency (canonTok tn.1) = f.currency ∧
              normNumberL (trimBoth tn.2) = some f.amount := by
  refine ⟨by decide, by decide, ?_⟩
  intro badge author text f hf
  rw [extractBlock] at hf
  split at hf
  · simp at hf
  · split at hf
    · obtain ⟨tn, htn, hmk⟩ := List.mem_filterMap.mp hf
      rw [mkFinding] at hmk
      refine ⟨?_, tn, htn, ?_, ?_⟩
      all_goals
        cases hp : normNumberL (trimBoth tn.2) with
        | none => simp only [hp] at hmk; cases hmk
        | some q =>
          simp only [hp] at hmk
          by_cases hcur : normalizeCurrency (canonTok tn.1) = ""
          · rw [if_pos hcur] at hmk; cases hmk
          · rw [if_neg hcur] at hmk
            injection hmk with hmk'
            subst hmk'
            first
            | exact hcur
            | rfl
    · simp at hf

theorem nonfatal_parse_semantics_witness :
    (Finding.mk "TRY" ⟨219999, 2⟩ "a" "Super Thanks! ₺2.199,99").currency ≠ "" ∧
      ∃ tn ∈ scanMatches (trimBoth "Super Thanks! ₺2.199,99".data),
        normalizeCurrency (canonTok tn.1) =
            (Finding.mk "TRY" ⟨219999, 2⟩ "a" "Super Thanks! ₺2.199,99").currency ∧
          normNumberL (trimBoth tn.2) =
            some (Finding.mk "TRY" ⟨219999, 2⟩ "a" "Super Thanks! ₺2.199,99").amount :=
  nonfatal_parse_semantics.2.2 false "a" "Super Thanks! ₺2.199,99"
    (Finding.mk "TRY" ⟨219999, 2⟩ "a" "Super Thanks! ₺2.199,99") (by decide)

theorem lastIdxOf_none_iff (cs : List Char) (c : Char) :
    lastIdxOf cs c = none ↔ c ∉ cs := by
  induction cs with
  | nil => simp [lastIdxOf]
  | cons a t ih =>
    rw [lastIdxOf]
    cases h : lastIdxOf t c with
    | some i =>
      have hmem : c ∈ t := by
        by_contra hc
        rw [ih.mpr hc] at h
        cases h
      simp [hmem]
    | none =>
      have hnm : c ∉ t := ih.mp h
      by_cases hac : a = c
      · simp [hac]
      · simp only [List.mem_cons, not_or]
        rw [if_neg hac]
        exact ⟨fun _ => ⟨fun hh => hac hh.symm, hnm⟩, fun _ => rfl⟩

theorem lastIdxOf_getD {cs : List Char} {c : Char} {i : Nat}
    (h : lastIdxOf cs c = some i) : i < cs.length ∧ cs.getD i ' ' = c := by
  induction cs generalizing i with
  | nil => cases h
  | cons a t ih =>
    rw [lastIdxOf] at h
    cases ht : lastIdxOf t c with
    | some j =>
      rw [ht] at h
      injection h with h'
      subst h'
      obtain ⟨hl, hg⟩ := ih ht
      exact ⟨Nat.succ_lt_succ hl, by simpa using hg⟩
    | none =>
      rw [ht] at h
      by_cases hac : a = c
      · rw [if_pos hac] at h
        injection h with h'
        subst h'
        exact ⟨Nat.succ_pos _, by simpa using hac⟩
      · rw [if_neg hac] at h
        cases h

theorem lastIdxOf_maxAt {cs : List Char} {c : Char} {i : Nat}
    (h : lastIdxOf cs c = some i) :
    ∀ j, i < j → j < cs.length → cs.getD j ' ' ≠ c := by
  induction cs generalizing i with
  | nil => cases h
  | cons a t ih =>
    rw [lastIdxOf] at h
    cases ht : lastIdxOf t c with
    | some k =>
      rw [ht] at h
      injection h with h'
      subst h'
      intro j hij hjl
      cases j with
      | zero => omega
      | succ j' =>
        have := ih ht j' (by omega) (by simpa using Nat.lt_of_succ_lt_succ hjl)
        simpa using this
    | none =>
      rw [ht] at h
      have hnm : c ∉ t := (lastIdxOf_none_iff t c).mp ht
      by_cases hac : a = c
      · rw [if_pos hac] at h
        injection h with h'
        subst h'
        intro j _ hjl
        cases j with
        | zero => omega
        | succ j' =>
          intro heq
          apply hnm
          have hj' : j' < t.length := by simpa using Nat.lt_of_succ_lt_succ hjl
          have hgd : t.getD j' ' ' = c := by simpa using heq
          rw [← hgd, List.getD_eq_getElem _ _ hj']
          exact List.getElem_mem hj'
      · rw [if_neg hac] at h
        cases h

theorem lastIdxOf_isSome_of_mem {cs : List Char} {c : Char} (h : c ∈ cs) :
    ∃ i, lastIdxOf cs c = some i := by
  cases hl : lastIdxOf cs c with
  | none => exact absurd h ((lastIdxOf_none_iff cs c).mp hl)
  | some i => exact ⟨i, rfl⟩

theorem tailFrac_iff (sep : Char) (hsep : sep = '.' ∨ sep = ',') (cs : List Char) :
    tailFrac sep cs = true ↔
      ∃ ds : List Char, ds ≠ [] ∧ ds.length ≤ 2 ∧ (∀ d ∈ ds, d.isDigit = true) ∧
        (sep :: ds) <:+ cs := by
  constructor
  · intro h
    rw [tailFrac] at h
    cases hr : cs.reverse with
    | nil => rw [hr] at h; cases h
    | cons a t =>
      cases t with
      | nil => rw [hr] at h; cases h
      | cons b rest =>
        rw [hr] at h
        have hcs : cs = rest.reverse ++ [b, a] := by
          have := congrArg List.reverse hr
          rw [List.reverse_reverse] at this
          rw [this]
          simp
        simp only [Bool.and_eq_true, Bool.or_eq_true, beq_iff_eq,
          Bool.and_eq_true] at h
        obtain ⟨ha, hrest⟩ := h
        rcases hrest with hb | ⟨hbd, hm⟩
        · subst hb
          exact ⟨[a], by simp, by simp, by simp [ha], ⟨rest.reverse, by rw [hcs]⟩⟩
        · cases rest with
          | nil => cases hm
          | cons c2 rest' =>
            have hc2 : c2 = sep := by simpa using hm
            subst hc2
            refine ⟨[b, a], by simp, by simp, by simp [ha, hbd], ⟨rest'.reverse, ?_⟩⟩
            rw [hcs]
            simp
  · rintro ⟨ds, hne, hlen, hdig, pre, hpre⟩
    have hds : (∃ d, ds = [d]) ∨ ∃ d e, ds = [d, e] := by
      cases ds with
      | nil => exact absurd rfl hne
      | cons d t =>
        cases t with
        | nil => exact Or.inl ⟨d, rfl⟩
        | cons e t' =>
          cases t' with
          | nil => exact Or.inr ⟨d, e, rfl⟩
          | cons x t'' => simp at hlen
    have hsepd : sep.isDigit = false := by
      rcases hsep with rfl | rfl <;> decide
    rcases hds with ⟨d, rfl⟩ | ⟨d, e, rfl⟩
    · have hd : d.isDigit = true := hdig d (by simp)
      rw [← hpre, tailFrac]
      simp [List.reverse_append, hd]
    · have hd : d.isDigit = true := hdig d (by simp)
      have he : e.isDigit = true := hdig e (by simp)
      have hdne : (e == sep) = false := by
        rcases hsep with rfl | rfl
        · cases hee : e == '.' with
          | false => rfl
          | true =>
            have : e = '.' := by simpa using hee
            subst this
            cases he
        · cases hee : e == ',' with
          | false => rfl
          | true =>
            have : e = ',' := by simpa using hee
            subst this
            cases he
      rw [← hpre, tailFrac]
      simp [List.reverse_append, hd, he, hdne]

theorem decimalSepOf_both (cs : List Char) (hd : '.' ∈ cs) (hc : ',' ∈ cs) :
    ∃ i, i < cs.length ∧ decimalSepOf cs = some (cs.getD i ' ') ∧
      (cs.getD i ' ' = '.' ∨ cs.getD i ' ' = ',') ∧
      ∀ j, i < j → j < cs.length → cs.getD j ' ' ≠ '.' ∧ cs.getD j ' ' ≠ ',' := by
  obtain ⟨d, hdot⟩ := lastIdxOf_isSome_of_mem hd
  obtain ⟨k, hcom⟩ := lastIdxOf_isSome_of_mem hc
  obtain ⟨hdl, hdg⟩ := lastIdxOf_getD hdot
  obtain ⟨hkl, hkg⟩ := lastIdxOf_getD hcom
  have hdk : d ≠ k := by
    intro hh
    rw [hh, hkg] at hdg
    cases hdg
  rw [decimalSepOf, hdot, hcom]
  by_cases hlt : k < d
  · refine ⟨d, hdl, by dsimp only; rw [if_pos hlt, hdg], Or.inl hdg, ?_⟩
    intro j hij hjl
    exact ⟨lastIdxOf_maxAt hdot j hij hjl,
      lastIdxOf_maxAt hcom j (Nat.lt_trans hlt hij) hjl⟩
  · have hdk' : d < k := by omega
    refine ⟨k, hkl, by dsimp only; rw [if_neg hlt, hkg], Or.inr hkg, ?_⟩
    intro j hij hjl
    exact ⟨lastIdxOf_maxAt hdot j (Nat.lt_trans hdk' hij) hjl,
      lastIdxOf_maxAt hcom j hij hjl⟩

theorem decimalSepOf_only_dot (cs : List Char) (hd : '.' ∈ cs) (hnc : ',' ∉ cs) :
    decimalSepOf cs = (if tailFrac '.' cs then some '.' else none) := by
  obtain ⟨d, hdot⟩ := lastIdxOf_isSome_of_mem hd
  have hcom : lastIdxOf cs ',' = none := (lastIdxOf_none_iff cs ',').mpr hnc
  rw [decimalSepOf, hdot, hcom]

theorem decimalSepOf_only_comma (cs : List Char) (hc : ',' ∈ cs) (hnd : '.' ∉ cs) :
    decimalSepOf cs = (if tailFrac ',' cs then some ',' else none) := by
  obtain ⟨k, hcom⟩ := lastIdxOf_isSome_of_mem hc
  have hdot : lastIdxOf cs '.' = none := (lastIdxOf_none_iff cs '.').mpr hnd
  rw [decimalSepOf, hdot, hcom]

/-- C2 (separator inference): the spec's parsing table holds —
`"2.199,99" → 2199.99`, `"1,234.56" → 1234.56`, `"3.000" → 3000`,
`"5.99" → 5.99`, `"10 000" → 10000`, `"2 bin" → 2000`, `"3bin" → 3000` —
and in general the inference picks, when both `.` and `,` occur, the
rightmost of the two as the decimal separator, while a sole separator is
the decimal point exactly when it is followed by one or two trailing
digits, and is otherwise dropped (decimalSepOf returns `none`, the
thousands-stripping branch). -/
theorem normNumber_separator_inference :
    normNumber "2.199,99" = some (2199.99 : ℚ) ∧
      normNumber "1,234.56" = some (1234.56 : ℚ) ∧
      normNumber "3.000" = some (3000 : ℚ) ∧
      normNumber "5.99" = some (5.99 : ℚ) ∧
      normNumber "10 000" = some (10000 : ℚ) ∧
      normNumber "2 bin" = some (2000 : ℚ) ∧
      normNumber "3bin" = some (3000 : ℚ) ∧
      (∀ cs : List Char, '.' ∈ cs → ',' ∈ cs →
        ∃ i, i < cs.length ∧ decimalSepOf cs = some (cs.getD i ' ') ∧
          (cs.getD i ' ' = '.' ∨ cs.getD i ' ' = ',') ∧
          ∀ j, i < j → j < cs.length → cs.getD j ' ' ≠ '.' ∧ cs.getD j ' ' ≠ ',') ∧
      (∀ cs : List Char, ∀ sep other : Char,
        (sep = '.' ∧ other = ',') ∨ (sep = ',' ∧ other = '.') →
        sep ∈ cs → other ∉ cs →
        ((decimalSepOf cs = some sep ↔
          ∃ ds : List Char, ds ≠ [] ∧ ds.length ≤ 2 ∧
            (∀ d ∈ ds, d.isDigit = true) ∧ (sep :: ds) <:+ cs) ∧
          (decimalSepOf cs = some sep ∨ decimalSepOf cs = none))) := by
  refine ⟨?_, ?_, ?_, ?_, ?_, ?_, ?_, ?_, ?_⟩
  · rw [normNumber, show normNumberL "2.199,99".data = some ⟨219999, 2⟩ from by decide]
    norm_num [Dec.toRat]
  · rw [normNumber, show normNumberL "1,234.56".data = some ⟨123456, 2⟩ from by decide]
    norm_num [Dec.toRat]
  · rw [normNumber, show normNumberL "3.000".data = some ⟨3000, 0⟩ from by decide]
    norm_num [Dec.toRat]
  · rw [normNumber, show normNumberL "5.99".data = some ⟨599, 2⟩ from by decide]
    norm_num [Dec.toRat]
  · rw [normNumber, show normNumberL "10 000".data = some ⟨10000, 0⟩ from by decide]
    norm_num [Dec.toRat]
  · rw [normNumber, show normNumberL "2 bin".data = some ⟨2000, 0⟩ from by decide]
    norm_num [Dec.toRat]
  · rw [normNumber, show normNumberL "3bin".data = some ⟨3000, 0⟩ from by decide]
    norm_num [Dec.toRat]
  · exact decimalSepOf_both
  · intro cs sep other hso hsep hother
    have hsep' : sep = '.' ∨ sep = ',' := by
      rcases hso with ⟨rfl, rfl⟩ | ⟨rfl, rfl⟩
      · exact Or.inl rfl
      · exact Or.inr rfl
    have hform : decimalSepOf cs = (if tailFrac sep cs then some sep else none) := by
      rcases hso with ⟨rfl, rfl⟩ | ⟨rfl, rfl⟩
      · exact decimalSepOf_only_dot cs hsep hother
      · exact decimalSepOf_only_comma cs hsep hother
    constructor
    · rw [hform, ← tailFrac_iff sep hsep' cs]
      by_cases htf : tailFrac sep cs
      · simp [htf]
      · simp [htf]
    · rw [hform]
      by_cases htf : tailFrac sep cs
      · rw [if_pos htf]; exact Or.inl rfl
      · rw [if_neg htf]; exact Or.inr rfl

theorem normNumber_separator_inference_witness :
    (∃ i, i < "2.199,99".data.length ∧
      decimalSepOf "2.199,99".data = some ("2.199,99".data.getD i ' ') ∧
      ("2.199,99".data.getD i ' ' = '.' ∨ "2.199,99".data.getD i ' ' = ',') ∧
      ∀ j, i < j → j < "2.199,99".data.length →
        "2.199,99".data.getD j ' ' ≠ '.' ∧ "2.199,99".data.getD j ' ' ≠ ',') ∧
      ((decimalSepOf "5.99".data = some '.' ↔
        ∃ ds : List Char, ds ≠ [] ∧ ds.length ≤ 2 ∧
          (∀ d ∈ ds, d.isDigit = true) ∧ ('.' :: ds) <:+ "5.99".data) ∧
        (decimalSepOf "5.99".data = some '.' ∨ decimalSepOf "5.99".data = none)) :=
  ⟨normNumber_separator_inference.2.2.2.2.2.2.2.1 "2.199,99".data
      (by decide) (by decide),
   normNumber_separator_inference.2.2.2.2.2.2.2.2 "5.99".data '.' ','
      (Or.inl ⟨rfl, rfl⟩) (by decide) (by decide)⟩

theorem lt_cons_same_iff {a : Char} {as bs : List Char} :
    (a :: bs) < (a :: as) ↔ bs < as := by
  constructor
  · intro h
    cases h with
    | cons h => exact h
    | rel h => exact absurd h (lt_irrefl a)
  · intro h
    exact List.Lex.cons h

theorem charListLe_iff (as bs : List Char) : charListLe as bs = true ↔ ¬bs < as := by
  induction as generalizing bs with
  | nil =>
    simp only [charListLe]
    constructor
    · intro _ h
      cases h
    · intro _
      trivial
  | cons a as' ih =>
    cases bs with
    | nil =>
      simp only [charListLe]
      constructor
      · intro h; cases h
      · intro h; exact absurd List.Lex.nil h
    | cons b bs' =>
      rw [charListLe]
      by_cases hab : a = b
      · subst hab
        rw [if_pos rfl, ih bs']
        exact ⟨fun h hl => h (lt_cons_same_iff.mp hl),
          fun h hl => h (lt_cons_same_iff.mpr hl)⟩
      · rw [if_neg hab]
        by_cases hlt : a < b
        · constructor
          · intro _ hl
            cases hl with
            | cons _ => exact hab rfl
            | rel h1 => exact absurd hlt (asymm h1)
          · intro _
            simp [hlt]
        · have hba : b < a := by
            rcases lt_trichotomy a b with h | h | h
            · exact absurd h hlt
            · exact absurd h hab
            · exact h
          constructor
          · intro h
            simp [hlt] at h
          · intro h
            exact absurd (List.Lex.rel hba) h

theorem strLeb_iff (a b : String) : strLeb a b = true ↔ a ≤ b := by
  rw [strLeb, String.le_iff_toList_le, ← not_lt]
  exact charListLe_iff a.data b.data

/-- C9 (totals snapshot): `mapToSortedObject` lists the currency keys in
lexicographic order; its entries are exactly the stored totals with each
value rounded to two decimals by `round2` (whose value is
`⌊n·100 + 1/2⌋ / 100`, i.e. `Math.round(n*100)/100`); it reads the map
without changing it (it is a pure function of the totals); and the
accumulation step itself stores the exact unrounded sum, so rounding
happens only at this read/report step. -/
theorem snapshot_totals_sorted_rounded :
    (∀ m : List (String × Dec),
      List.Sorted (· ≤ ·) ((mapToSortedObject m).map Prod.fst) ∧
        ∀ c v, (c, v) ∈ mapToSortedObject m ↔ ∃ w, (c, w) ∈ m ∧ v = w.round2) ∧
      (∀ d : Dec, d.round2.toRat = (⌊d.toRat * 100 + 1 / 2⌋ : ℚ) / 100) ∧
      ∀ (st : RunState) (f : Finding),
        (mapGet (addFinding st f).totals f.currency).map Dec.toRat =
          some (((mapGet st.totals f.currency).getD Dec.zero).toRat +
            f.amount.toRat) := by
  refine ⟨?_, round2_toRat, ?_⟩
  · intro m
    haveI htot : IsTotal (String × Dec) (fun a b => strLeb a.1 b.1 = true) :=
      ⟨fun a b => by
        rcases le_total a.1 b.1 with h | h
        · exact Or.inl ((strLeb_iff _ _).mpr h)
        · exact Or.inr ((strLeb_iff _ _).mpr h)⟩
    haveI htr : IsTrans (String × Dec) (fun a b => strLeb a.1 b.1 = true) :=
      ⟨fun a b c hab hbc =>
        (strLeb_iff _ _).mpr
          (le_trans ((strLeb_iff _ _).mp hab) ((strLeb_iff _ _).mp hbc))⟩
    constructor
    · have hs := List.sorted_insertionSort
        (fun a b : String × Dec => strLeb a.1 b.1 = true) m
      rw [mapToSortedObject, List.Sorted, List.map_map, List.pairwise_map]
      exact hs.imp fun hab => (strLeb_iff _ _).mp hab
    · intro c v
      rw [mapToSortedObject]
      constructor
      · intro hm
        obtain ⟨p, hp, hgp⟩ := List.mem_map.mp hm
        obtain ⟨c', w⟩ := p
        obtain ⟨hc', hv⟩ := Prod.mk.injEq .. ▸ hgp
        refine ⟨w, ?_, hv.symm⟩
        rw [← hc']
        exact (List.perm_insertionSort
          (fun a b : String × Dec => strLeb a.1 b.1 = true) m).mem_iff.mp hp
      · rintro ⟨w, hw, rfl⟩
        exact List.mem_map.mpr ⟨(c, w),
          (List.perm_insertionSort
            (fun a b : String × Dec => strLeb a.1 b.1 = true) m).mem_iff.mpr hw, rfl⟩
  · intro st f
    have ht : (addFinding st f).totals =
        mapSet st.totals f.currency
          (((mapGet st.totals f.currency).getD Dec.zero).add f.amount) := rfl
    rw [ht, mapGet_mapSet_self]
    simp [add_toRat]

theorem snapshot_totals_sorted_rounded_witness :
    List.Sorted (· ≤ ·)
        ((mapToSortedObject [("USD", (⟨55, 1⟩ : Dec)), ("TRY", ⟨1, 0⟩)]).map
          Prod.fst) ∧
      (⟨199, 1⟩ : Dec).round2.toRat =
        (⌊(⟨199, 1⟩ : Dec).toRat * 100 + 1 / 2⌋ : ℚ) / 100 :=
  ⟨(snapshot_totals_sorted_rounded.1 [("USD", ⟨55, 1⟩), ("TRY", ⟨1, 0⟩)]).1,
   snapshot_totals_sorted_rounded.2.1 ⟨199, 1⟩⟩
